import Mathlib

/-!
# GPFIFO register file (`skyline/gpu/engines/gpfifo.h`)

A shallow embedding of the `GPFIFO` engine of `gpfifo.h`: the union `Regs`
(64 raw `u32` words overlaid with a struct of named, partly bit-packed
members) and the single operation `CallMethod`, which stores the argument of
a method call into the raw word addressed by the method index.

Conventions of the embedding.

* Machine words are natural numbers; a `u32` is stored reduced modulo `2^32`.
* The layout of the named view is not written down by hand: the member
  declarations of the anonymous struct are transcribed in declaration order
  (`namedView`), and byte and bit offsets are computed from them by the
  allocation rule of the Itanium C++ ABI on a little-endian target (the rule
  clang applies for the Android targets this file is built for): members are
  placed in declaration order at the next offset that satisfies their
  alignment; a bit-field is placed at the next free bit, except that in a
  struct that is not packed it is moved to the next storage unit of its
  declared type when it would otherwise straddle one.
* Reading a bit-field yields the field's bits as a number of the field's
  declared type: zero-extended for `u8`/`u16`/`u32`, sign-extended for the
  `enum class` types, all of which are declared without an enum-base and so
  have underlying type `int`.
-/

namespace skyline

namespace constant

/-- `constexpr u32 GpfifoRegisterSize = 0x40`: the size of the GPFIFO register
space in units of `u32`. -/
def GpfifoRegisterSize : Nat := 0x40

end constant

namespace gpu.engine

/-- Modelled from the spec: `MethodParams` is declared in `engine.h`, which is
not among the sources. `CallMethod` uses its members `method` and `argument`
only; the spec gives them as an integer method index and a 32-bit argument
word. -/
structure MethodParams where
  method : Nat
  argument : Nat
  deriving DecidableEq, Repr

/-- The storage of a `GPFIFO` object, addressed in `u32` words counted from the
first word of its member `regs`. Word `i` with `i < GpfifoRegisterSize` is
`regs.raw[i]`; the words from `GpfifoRegisterSize` on are whatever the
enclosing allocation holds behind the union. They are part of the state because
`std::array::operator[]` does not check its index: the store in `CallMethod`
is plain address arithmetic on the start of `raw`. -/
structure GPFIFO where
  word : Nat → Nat

/-- `regs.raw[i]`, for `i < GpfifoRegisterSize`. -/
def GPFIFO.raw (g : GPFIFO) (i : Nat) : Nat := g.word i

/-- The state after construction: `regs{}` value-initialises the union, so all
raw words are zero; `behind` is the content of the storage following it. -/
def GPFIFO.new (behind : Nat → Nat) : GPFIFO :=
  ⟨fun i => if i < constant.GpfifoRegisterSize then 0 else behind i⟩

/-- `GPFIFO::CallMethod`:
`regs.raw[params.method] = params.argument;`
(the preceding `state.logger->Debug(...)` call only emits a trace line and
touches no register). The argument is stored as a `u32`. -/
def GPFIFO.CallMethod (g : GPFIFO) (params : MethodParams) : GPFIFO :=
  ⟨fun i => if i = params.method then params.argument % 2 ^ 32 else g.word i⟩

/-- A sequence of method calls, issued in order on the same engine. -/
def GPFIFO.CallMethods (g : GPFIFO) (calls : List MethodParams) : GPFIFO :=
  calls.foldl GPFIFO.CallMethod g

/-! ## The declarations of the named view -/

/-- The declared type of a bit-field. `enumClass` stands for any of the
`enum class` types of `Regs`; none of them has an enum-base, so their
underlying type is `int`. -/
inductive FieldType
  | u8
  | u16
  | u32
  | enumClass
  deriving DecidableEq, Repr

/-- Width in bits of the storage unit of a declared type. -/
def FieldType.bits : FieldType → Nat
  | .u8 => 8
  | .u16 => 16
  | .u32 => 32
  | .enumClass => 32

/-- Whether values of the declared type are signed. A scoped enumeration
declared without an enum-base has the underlying type `int`, and a bit-field of
an enumeration type has the signedness of the underlying type: clang and gcc
read it with sign extension. -/
def FieldType.isSigned : FieldType → Bool
  | .u8 => false
  | .u16 => false
  | .u32 => false
  | .enumClass => true

/-- One bit-field declaration `type name : width;`. -/
structure BitField where
  type : FieldType
  name : String
  width : Nat
  deriving DecidableEq, Repr

/-- A member declaration that is not itself a struct of members. -/
inductive Decl
  /-- The declaration `u32 name;`. -/
  | u32 (name : String)
  /-- The declaration `u32 name[count];`. -/
  | u32Array (name : String) (count : Nat)
  /-- A struct made of bit-fields only, `name` being empty for an anonymous
  struct and `packed` recording `__attribute__((__packed__))`. -/
  | bitFields (name : String) (packed : Bool) (fields : List BitField)
  deriving DecidableEq, Repr

/-- A member of the anonymous struct of `Regs`: a declaration, or a named
struct of declarations. -/
inductive Member
  | plain (decl : Decl)
  | struct (name : String) (members : List Decl)
  deriving DecidableEq, Repr

/-- The member `setObject` (lines 94-98). -/
def setObjectFields : List BitField :=
  [⟨.u16, "nvClass", 16⟩, ⟨.u16, "engine", 5⟩, ⟨.u32, "_pad_", 11⟩]

/-- The first anonymous struct of `semaphore` (lines 105-108). -/
def semaphoreOffsetUpperFields : List BitField :=
  [⟨.u32, "offsetUpper", 8⟩, ⟨.u32, "_pad0_", 24⟩]

/-- The second anonymous struct of `semaphore` (lines 110-113). -/
def semaphoreOffsetLowerFields : List BitField :=
  [⟨.u8, "_pad1_", 2⟩, ⟨.u32, "offsetLower", 30⟩]

/-- The packed anonymous struct of `semaphore` (lines 117-128). -/
def semaphoreControlFields : List BitField :=
  [⟨.enumClass, "operation", 5⟩,
   ⟨.u8, "_pad2_", 7⟩,
   ⟨.enumClass, "acquireSwitch", 1⟩,
   ⟨.u8, "_pad3_", 7⟩,
   ⟨.enumClass, "releaseWfi", 1⟩,
   ⟨.u8, "_pad4_", 3⟩,
   ⟨.enumClass, "releaseSize", 1⟩,
   ⟨.u8, "_pad5_", 2⟩,
   ⟨.enumClass, "reduction", 4⟩,
   ⟨.enumClass, "format", 1⟩]

/-- The packed anonymous struct of `syncpoint` (lines 143-150). -/
def syncpointControlFields : List BitField :=
  [⟨.enumClass, "operation", 1⟩,
   ⟨.u8, "_pad0_", 3⟩,
   ⟨.enumClass, "waitSwitch", 1⟩,
   ⟨.u8, "_pad1_", 3⟩,
   ⟨.u16, "index", 12⟩,
   ⟨.u16, "_pad2_", 12⟩]

/-- The member `wfi` (lines 153-156). -/
def wfiFields : List BitField :=
  [⟨.enumClass, "scope", 1⟩, ⟨.u32, "_pad_", 31⟩]

/-- The member `yield` (lines 160-163). -/
def yieldFields : List BitField :=
  [⟨.enumClass, "op", 2⟩, ⟨.u32, "_pad_", 30⟩]

/-- The members of the anonymous struct of `Regs` (lines 93-164), in
declaration order. -/
def namedView : List Member :=
  [.plain (.bitFields "setObject" false setObjectFields),
   .plain (.u32 "illegal"),
   .plain (.u32 "nop"),
   .plain (.u32 "_pad0_"),
   .struct "semaphore"
     [.bitFields "" false semaphoreOffsetUpperFields,
      .bitFields "" false semaphoreOffsetLowerFields,
      .u32 "payload",
      .bitFields "" true semaphoreControlFields],
   .plain (.u32 "nonStallInterrupt"),
   .plain (.u32 "fbFlush"),
   .plain (.u32Array "_pad1_" 2),
   .plain (.u32 "memOpC"),
   .plain (.u32 "memOpD"),
   .plain (.u32Array "_pad2_" 6),
   .plain (.u32 "setReference"),
   .plain (.u32Array "_pad3_" 7),
   .struct "syncpoint"
     [.u32 "payload",
      .bitFields "" true syncpointControlFields],
   .plain (.bitFields "wfi" false wfiFields),
   .plain (.u32 "crcCheck"),
   .plain (.bitFields "yield" false yieldFields)]

/-! ## Layout -/

/-- The least multiple of `a` that is not below `n`. -/
def roundUp (n a : Nat) : Nat := (n + a - 1) / a * a

/-- A bit-field with the offset, in bits from the start of its struct, of its
lowest bit. -/
structure PlacedBitField where
  field : BitField
  offset : Nat
  deriving DecidableEq, Repr

/-- Allocation of the bit-fields of one struct, `next` being the first free
bit. A field goes to the next free bit; in a struct that is not packed a field
that would straddle a storage unit of its declared type starts the next unit
instead. -/
def placeBitFields (packed : Bool) : Nat → List BitField → List PlacedBitField
  | _, [] => []
  | next, f :: fs =>
    let off :=
      if packed ∨ next / f.type.bits = (next + f.width - 1) / f.type.bits then next
      else (next / f.type.bits + 1) * f.type.bits
    ⟨f, off⟩ :: placeBitFields packed (off + f.width) fs

/-- The first bit behind the last of the placed bit-fields. -/
def bitsEnd (placed : List PlacedBitField) : Nat :=
  (placed.map fun p => p.offset + p.field.width).foldl max 0

/-- Alignment of a declaration, in bytes. -/
def Decl.align : Decl → Nat
  | .u32 _ => 4
  | .u32Array _ _ => 4
  | .bitFields _ packed fields =>
    if packed then 1 else (fields.map fun f => f.type.bits / 8).foldl max 1

/-- Size of a declaration (`sizeof`), in bytes. -/
def Decl.size : Decl → Nat
  | .u32 _ => 4
  | .u32Array _ count => 4 * count
  | .bitFields name packed fields =>
    roundUp ((bitsEnd (placeBitFields packed 0 fields) + 7) / 8)
      (Decl.bitFields name packed fields).align

/-- A declaration with its offset, in bytes from the start of the enclosing
struct. -/
structure PlacedDecl where
  decl : Decl
  offset : Nat
  deriving DecidableEq, Repr

/-- Allocation of the members of a struct in declaration order, `next` being
the first free byte. -/
def placeDecls : Nat → List Decl → List PlacedDecl
  | _, [] => []
  | next, d :: ds =>
    let off := roundUp next d.align
    ⟨d, off⟩ :: placeDecls (off + d.size) ds

/-- The first byte behind the last of the placed declarations. -/
def declsEnd (placed : List PlacedDecl) : Nat :=
  (placed.map fun p => p.offset + p.decl.size).foldl max 0

/-- The name of a member. -/
def Member.name : Member → String
  | .plain (.u32 name) => name
  | .plain (.u32Array name _) => name
  | .plain (.bitFields name _ _) => name
  | .struct name _ => name

/-- Alignment of a member, in bytes. -/
def Member.align : Member → Nat
  | .plain d => d.align
  | .struct _ members => (members.map Decl.align).foldl max 1

/-- Size of a member (`sizeof`), in bytes. -/
def Member.size : Member → Nat
  | .plain d => d.size
  | .struct name members =>
    roundUp (declsEnd (placeDecls 0 members)) (Member.struct name members).align

/-- A member of the named view with its offset, in bytes from the start of
`Regs`. -/
structure PlacedMember where
  member : Member
  offset : Nat
  deriving DecidableEq, Repr

/-- Allocation of the members of the named view, `next` being the first free
byte. -/
def placeMembers : Nat → List Member → List PlacedMember
  | _, [] => []
  | next, m :: ms =>
    let off := roundUp next m.align
    ⟨m, off⟩ :: placeMembers (off + m.size) ms

/-- The named view as laid out in memory. -/
def namedLayout : List PlacedMember := placeMembers 0 namedView

/-- `sizeof` of the anonymous struct holding the named view, in bytes. -/
def namedSize : Nat :=
  roundUp ((namedLayout.map fun p => p.offset + p.member.size).foldl max 0)
    ((namedView.map Member.align).foldl max 1)

/-- `sizeof(std::array<u32, constant::GpfifoRegisterSize>)`, in bytes. -/
def rawSize : Nat := 4 * constant.GpfifoRegisterSize

/-- `sizeof(Regs)`, in bytes: a union is as large as its largest member,
rounded up to its alignment. -/
def sizeofRegs : Nat :=
  roundUp (max namedSize rawSize) (max ((namedView.map Member.align).foldl max 1) 4)

/-- The raw indices covered by a member of the named view: the index of its
first word and the number of words, when the member exists. -/
def wordRange (name : String) : Option (Nat × Nat) :=
  (namedLayout.find? fun p => p.member.name = name).map
    fun p => (p.offset / 4, p.member.size / 4)

/-- Whether raw index `i` belongs to the member called `name`. -/
def covers (name : String) (i : Nat) : Bool :=
  match wordRange name with
  | some (first, count) => first ≤ i && i < first + count
  | none => false

/-! ## Reading the named view -/

/-- Where a field of the named view lives: the raw index of the word holding
it, the position in that word of the field's lowest bit (bit 0 being the least
significant: the target is little-endian), its width in bits and the
signedness of its declared type. -/
structure FieldLoc where
  word : Nat
  shift : Nat
  width : Nat
  signed : Bool
  deriving DecidableEq, Repr

/-- The fields a declaration placed at byte `base` of `Regs` contributes, each
under its access path from the enclosing struct. The elements of a `u32` array
are not fields of their own. -/
def Decl.fields (base : Nat) : Decl → List (List String × FieldLoc)
  | .u32 name => [([name], ⟨8 * base / 32, 8 * base % 32, 32, false⟩)]
  | .u32Array _ _ => []
  | .bitFields name packed fields =>
    (placeBitFields packed 0 fields).map fun p =>
      ((if name = "" then [] else [name]) ++ [p.field.name],
        ⟨(8 * base + p.offset) / 32, (8 * base + p.offset) % 32, p.field.width,
          p.field.type.isSigned⟩)

/-- The fields of a member placed at byte `base` of `Regs`, each under its
access path from `regs`. -/
def Member.fields (base : Nat) : Member → List (List String × FieldLoc)
  | .plain d => d.fields base
  | .struct name members =>
    ((placeDecls 0 members).map fun p =>
      (p.decl.fields (base + p.offset)).map fun f => (name :: f.1, f.2)).flatten

/-- Every field of the named view with its access path, e.g.
`["semaphore", "operation"]` for `regs.semaphore.operation`. -/
def namedFields : List (List String × FieldLoc) :=
  (namedLayout.map fun p => p.member.fields p.offset).flatten

/-- The location of the field reached by `path`, when there is one. -/
def locate (path : List String) : Option FieldLoc :=
  (namedFields.find? fun f => f.1 = path).map fun f => f.2

/-- The bits a field holds, as a number below `2 ^ width`. -/
def FieldLoc.bits (l : FieldLoc) (g : GPFIFO) : Nat :=
  g.raw l.word / 2 ^ l.shift % 2 ^ l.width

/-- The value an lvalue-to-rvalue conversion of the field yields: its bits
read as a number of the declared type, that is as a two's complement number
of `width` bits when that type is signed. -/
def FieldLoc.read (l : FieldLoc) (g : GPFIFO) : Int :=
  if l.signed ∧ 2 ^ (l.width - 1) ≤ l.bits g then (l.bits g : Int) - 2 ^ l.width
  else (l.bits g : Int)

/-- The bits of the field of the named view reached by `path`. -/
def GPFIFO.fieldBits (g : GPFIFO) (path : List String) : Option Nat :=
  (locate path).map fun l => l.bits g

/-- The value read from the field of the named view reached by `path`. -/
def GPFIFO.field (g : GPFIFO) (path : List String) : Option Int :=
  (locate path).map fun l => l.read g

/-! ## The enumerations of `Regs` -/

/-- The enumeration `Regs::SemaphoreOperation` (lines 27-33). -/
inductive SemaphoreOperation
  | Acquire
  | Release
  | AcqGeq
  | AcqAnd
  | Reduction
  deriving DecidableEq, Repr

/-- The enumerator values of `SemaphoreOperation`. -/
def SemaphoreOperation.value : SemaphoreOperation → Int
  | .Acquire => 1
  | .Release => 2
  | .AcqGeq => 4
  | .AcqAnd => 8
  | .Reduction => 16

/-- The enumeration `Regs::SemaphoreAcquireSwitch` (lines 35-38). -/
inductive SemaphoreAcquireSwitch
  | Disabled
  | Enabled
  deriving DecidableEq, Repr

/-- The enumerator values of `SemaphoreAcquireSwitch`. -/
def SemaphoreAcquireSwitch.value : SemaphoreAcquireSwitch → Int
  | .Disabled => 0
  | .Enabled => 1

/-- The enumeration `Regs::SemaphoreReleaseWfi` (lines 40-43). -/
inductive SemaphoreReleaseWfi
  | En
  | Dis
  deriving DecidableEq, Repr

/-- The enumerator values of `SemaphoreReleaseWfi`. -/
def SemaphoreReleaseWfi.value : SemaphoreReleaseWfi → Int
  | .En => 0
  | .Dis => 1

/-- The enumeration `Regs::SemaphoreReleaseSize` (lines 45-48). -/
inductive SemaphoreReleaseSize
  | SixteenBytes
  | FourBytes
  deriving DecidableEq, Repr

/-- The enumerator values of `SemaphoreReleaseSize`. -/
def SemaphoreReleaseSize.value : SemaphoreReleaseSize → Int
  | .SixteenBytes => 0
  | .FourBytes => 1

/-- The enumeration `Regs::SemaphoreReduction` (lines 50-59). -/
inductive SemaphoreReduction
  | Min
  | Max
  | Xor
  | And
  | Or
  | Add
  | Inc
  | Dec
  deriving DecidableEq, Repr

/-- The enumerator values of `SemaphoreReduction`. -/
def SemaphoreReduction.value : SemaphoreReduction → Int
  | .Min => 0
  | .Max => 1
  | .Xor => 2
  | .And => 3
  | .Or => 4
  | .Add => 5
  | .Inc => 6
  | .Dec => 7

/-- The enumeration `Regs::SemaphoreFormat` (lines 61-64). -/
inductive SemaphoreFormat
  | Signed
  | Unsigned
  deriving DecidableEq, Repr

/-- The enumerator values of `SemaphoreFormat`. -/
def SemaphoreFormat.value : SemaphoreFormat → Int
  | .Signed => 0
  | .Unsigned => 1

/-- The enumeration `Regs::SyncpointOperation` (lines 71-74). -/
inductive SyncpointOperation
  | Wait
  | Incr
  deriving DecidableEq, Repr

/-- The enumerator values of `SyncpointOperation`. -/
def SyncpointOperation.value : SyncpointOperation → Int
  | .Wait => 0
  | .Incr => 1

/-- The enumeration `Regs::SyncpointWaitSwitch` (lines 76-79). -/
inductive SyncpointWaitSwitch
  | Dis
  | En
  deriving DecidableEq, Repr

/-- The enumerator values of `SyncpointWaitSwitch`. -/
def SyncpointWaitSwitch.value : SyncpointWaitSwitch → Int
  | .Dis => 0
  | .En => 1

/-- The enumeration `Regs::WfiScope` (lines 81-84). -/
inductive WfiScope
  | CurrentScgType
  | All
  deriving DecidableEq, Repr

/-- The enumerator values of `WfiScope`. -/
def WfiScope.value : WfiScope → Int
  | .CurrentScgType => 0
  | .All => 1

/-- The enumeration `Regs::YieldOp` (lines 86-91). -/
inductive YieldOp
  | Nop
  | PbdmaTimeslice
  | RunlistTimeslice
  | Tsg
  deriving DecidableEq, Repr

/-- The enumerator values of `YieldOp`. -/
def YieldOp.value : YieldOp → Int
  | .Nop => 0
  | .PbdmaTimeslice => 1
  | .RunlistTimeslice => 2
  | .Tsg => 3

/-! ## Padding and named members -/

/-- Whether a member or field is padding: the source names its padding
`_pad_`, `_pad0_`, `_pad1_`, ... -/
def isPadding (name : String) : Bool :=
  name.toList.take 4 = ['_', 'p', 'a', 'd']

/-- The names of the members of the named view that are not padding. -/
def namedMembers : List String :=
  (namedView.map Member.name).filter fun name => !isPadding name

/-- Whether raw index `i` belongs to no member of the named view other than
padding. -/
def uncovered (i : Nat) : Bool :=
  namedMembers.all fun name => !covers name i

/-- The member of the named view a field belongs to: the first component of
its access path. -/
def memberOf (path : List String) : String := path.headD ""

/-! ## Calls on collaborators -/

/-- Modelled from the spec: the requests the unit can send to its collaborators
(the outbound requests of section 6 of the spec). In the source a collaborator
is reached through `state`, a `DeviceState` declared in `common.h`, which is
not among the sources. -/
inductive Request
  /-- Read of semaphore memory at an address (acquire). -/
  | memoryRead (address : Nat)
  /-- Write of `payload`, `bytes` wide, to semaphore memory at an address. -/
  | memoryWrite (address bytes payload : Nat)
  /-- Reduction of semaphore memory at an address with `payload`. -/
  | memoryReduction (address payload : Nat)
  /-- Increment of the syncpoint counter `index`. -/
  | syncpointIncrement (index : Nat)
  /-- Wait until the syncpoint counter `index` reaches `threshold`. -/
  | syncpointWait (index threshold : Nat)
  /-- Query of the syncpoint counter `index`. -/
  | syncpointQuery (index : Nat)
  /-- Invalidation of the TLB. -/
  | tlbInvalidate
  /-- Notification of a non-stall interrupt. -/
  | interrupt
  /-- Notification of a framebuffer flush. -/
  | flush
  /-- Notification of a scheduling yield. -/
  | yield
  /-- Notification of a fault. -/
  | fault
  /-- Diagnostic trace of a method write: `state.logger->Debug(...)`. -/
  | trace (method argument : Nat)
  deriving DecidableEq, Repr

/-- Whether a request accesses semaphore memory. -/
def Request.isMemory : Request → Bool
  | .memoryRead _ => true
  | .memoryWrite _ _ _ => true
  | .memoryReduction _ _ => true
  | _ => false

/-- Whether a request goes to the syncpoint unit. -/
def Request.isSyncpoint : Request → Bool
  | .syncpointIncrement _ => true
  | .syncpointWait _ _ => true
  | .syncpointQuery _ => true
  | _ => false

/-- The requests `GPFIFO::CallMethod` sends, in order. The body of the function
has one call on a collaborator,
`state.logger->Debug("Called method in GPFIFO: 0x{:X} args: 0x{:X}", params.method, params.argument)`,
and then the store into `regs.raw`. -/
def GPFIFO.CallMethodRequests (params : MethodParams) : List Request :=
  [.trace params.method params.argument]

/-- The requests a sequence of calls sends, in order. -/
def GPFIFO.CallMethodsRequests (calls : List MethodParams) : List Request :=
  (calls.map GPFIFO.CallMethodRequests).flatten

/-- Modelled from the spec: the syncpoint counters, which the syncpoint unit
(not among the sources) owns, after it has served a list of requests. A
request to increment the counter `index` adds one to it; no other request
changes a counter. -/
def syncpointsAfter (counters : Nat → Nat) : List Request → Nat → Nat
  | [] => counters
  | .syncpointIncrement index :: rest =>
    syncpointsAfter (fun i => if i = index then counters i + 1 else counters i) rest
  | _ :: rest => syncpointsAfter counters rest

/-! ## The access outside the array -/

theorem word_CallMethod (g : GPFIFO) (params : MethodParams) (i : Nat) :
    (g.CallMethod params).word i =
      if i = params.method then params.argument % 2 ^ 32 else g.word i := rfl

theorem raw_CallMethod_self (g : GPFIFO) (m a : Nat) :
    (g.CallMethod ⟨m, a⟩).raw m = a % 2 ^ 32 := by
  simp [GPFIFO.raw, word_CallMethod]

theorem raw_CallMethod_other (g : GPFIFO) (m a j : Nat) (h : j ≠ m) :
    (g.CallMethod ⟨m, a⟩).raw j = g.raw j := by
  simp [GPFIFO.raw, word_CallMethod, h]

theorem CallMethods_nil (g : GPFIFO) : g.CallMethods [] = g := rfl

theorem CallMethods_cons (g : GPFIFO) (p : MethodParams) (ps : List MethodParams) :
    g.CallMethods (p :: ps) = (g.CallMethod p).CallMethods ps := rfl

theorem CallMethods_append (g : GPFIFO) (ps qs : List MethodParams) :
    g.CallMethods (ps ++ qs) = (g.CallMethods ps).CallMethods qs := by
  simp [GPFIFO.CallMethods, List.foldl_append]

/-- Calls none of which addresses index `m` leave the word at `m` alone. -/
theorem raw_CallMethods_of_not_written (calls : List MethodParams) (m : Nat)
    (h : ∀ p ∈ calls, p.method ≠ m) (g : GPFIFO) :
    (g.CallMethods calls).raw m = g.raw m := by
  induction calls generalizing g with
  | nil => rfl
  | cons p ps ih =>
    rw [CallMethods_cons, ih (fun q hq => h q (List.mem_cons_of_mem _ hq))]
    exact raw_CallMethod_other g p.method p.argument m
      (fun e => h p (List.mem_cons_self _ _) e.symm)

/-- A sequence that addresses index `m` at all has a last call that does. -/
theorem exists_last_call (calls : List MethodParams) (m : Nat)
    (h : ∃ p ∈ calls, p.method = m) :
    ∃ front a back, calls = front ++ ⟨m, a⟩ :: back ∧ ∀ p ∈ back, p.method ≠ m := by
  induction calls with
  | nil => obtain ⟨p, hp, _⟩ := h; cases hp
  | cons c cs ih =>
    by_cases hcs : ∃ p ∈ cs, p.method = m
    · obtain ⟨front, a, back, hsplit, hback⟩ := ih hcs
      exact ⟨c :: front, a, back, by rw [hsplit]; rfl, hback⟩
    · obtain ⟨p, hp, hpm⟩ := h
      have hc : c.method = m := by
        rcases List.mem_cons.mp hp with rfl | hmem
        · exact hpm
        · exact absurd ⟨p, hmem, hpm⟩ hcs
      refine ⟨[], c.argument, cs, ?_, fun q hq e => hcs ⟨q, hq, e⟩⟩
      cases c
      simp only [List.nil_append] at *
      subst hc
      rfl

/-! ## Reading a field after a store -/

theorem bits_CallMethod (l : FieldLoc) (g : GPFIFO) (w : Nat) (hw : w < 2 ^ 32) :
    l.bits (g.CallMethod ⟨l.word, w⟩) = w / 2 ^ l.shift % 2 ^ l.width := by
  unfold FieldLoc.bits
  rw [raw_CallMethod_self, Nat.mod_eq_of_lt hw]

theorem fieldBits_CallMethod (path : List String) (l : FieldLoc) (h : locate path = some l)
    (g : GPFIFO) (w : Nat) (hw : w < 2 ^ 32) :
    (g.CallMethod ⟨l.word, w⟩).fieldBits path = some (w / 2 ^ l.shift % 2 ^ l.width) := by
  simp only [GPFIFO.fieldBits, h, Option.map_some', bits_CallMethod l g w hw]

theorem field_CallMethod (path : List String) (l : FieldLoc) (h : locate path = some l)
    (g : GPFIFO) (w : Nat) (hw : w < 2 ^ 32) :
    (g.CallMethod ⟨l.word, w⟩).field path =
      some (if l.signed ∧ 2 ^ (l.width - 1) ≤ w / 2 ^ l.shift % 2 ^ l.width
        then ((w / 2 ^ l.shift % 2 ^ l.width : Nat) : Int) - 2 ^ l.width
        else ((w / 2 ^ l.shift % 2 ^ l.width : Nat) : Int)) := by
  simp only [GPFIFO.field, h, Option.map_some', FieldLoc.read, bits_CallMethod l g w hw]

/-- The value read from a field and the bits the field holds agree modulo
`2 ^ width`: reading loses no bit, it only interprets the top bit of a signed
field as the sign. -/
theorem read_emod (l : FieldLoc) (g : GPFIFO) :
    l.read g % (2 : Int) ^ l.width = (l.bits g : Int) := by
  have hlt : l.bits g < 2 ^ l.width := Nat.mod_lt _ (Nat.pow_pos (by decide))
  have hmod : ((l.bits g : Nat) : Int) % (2 : Int) ^ l.width = (l.bits g : Int) := by
    apply Int.emod_eq_of_lt (Int.ofNat_nonneg _)
    exact_mod_cast hlt
  unfold FieldLoc.read
  split
  · rw [Int.sub_emod, Int.emod_self, sub_zero, Int.emod_emod_of_dvd _ (dvd_refl _), hmod]
  · exact hmod

/-- Every value from 0 to 7 is the value of an enumerator of
`SemaphoreReduction`. -/
theorem exists_reduction_of_lt (n : Nat) (hn : n < 8) :
    ∃ e : SemaphoreReduction, e.value = (n : Int) := by
  interval_cases n
  exacts [⟨.Min, rfl⟩, ⟨.Max, rfl⟩, ⟨.Xor, rfl⟩, ⟨.And, rfl⟩, ⟨.Or, rfl⟩, ⟨.Add, rfl⟩,
    ⟨.Inc, rfl⟩, ⟨.Dec, rfl⟩]

/-- C1: for every method index `m` in `[0, 64)` and every 32-bit argument `a`,
after `CallMethod(m, a)` the raw register at index `m` reads back exactly
`a`. -/
theorem C1_CallMethod_reads_back (g : GPFIFO) (m a : Nat)
    (hm : m < constant.GpfifoRegisterSize) (ha : a < 2 ^ 32) :
    (g.CallMethod ⟨m, a⟩).raw m = a := by
  have _ := hm
  rw [raw_CallMethod_self, Nat.mod_eq_of_lt ha]

theorem C1_CallMethod_reads_back_witness :
    ((GPFIFO.new fun _ => 0).CallMethod ⟨7, 0x80000002⟩).raw 7 = 0x80000002 :=
  C1_CallMethod_reads_back (GPFIFO.new fun _ => 0) 7 0x80000002 (by decide) (by decide)

/-- C2: for every method index `m` in `[0, 64)`, every argument `a` and every
index `j` in `[0, 64)` other than `m`, `CallMethod(m, a)` leaves `raw[j]`
unchanged. The four words of the semaphore descriptor (the member `semaphore`,
indices 4..7) and the two words of the syncpoint descriptor (the member
`syncpoint`, indices 28..29) are such indices, so a write to one word of a
descriptor changes only that word. -/
theorem C2_CallMethod_frame (g : GPFIFO) (m a j : Nat)
    (hm : m < constant.GpfifoRegisterSize) (hj : j < constant.GpfifoRegisterSize)
    (hjm : j ≠ m) :
    (g.CallMethod ⟨m, a⟩).raw j = g.raw j ∧
      wordRange "semaphore" = some (4, 4) ∧ wordRange "syncpoint" = some (28, 2) ∧
      4 + 4 ≤ constant.GpfifoRegisterSize ∧ 28 + 2 ≤ constant.GpfifoRegisterSize := by
  have _ := hm
  have _ := hj
  exact ⟨raw_CallMethod_other g m a j hjm, by decide, by decide, by decide, by decide⟩

theorem C2_CallMethod_frame_witness :
    ((GPFIFO.new fun _ => 0).CallMethod ⟨7, 2⟩).raw 6 = (GPFIFO.new fun _ => 0).raw 6 ∧
      wordRange "semaphore" = some (4, 4) ∧ wordRange "syncpoint" = some (28, 2) ∧
      4 + 4 ≤ constant.GpfifoRegisterSize ∧ 28 + 2 ≤ constant.GpfifoRegisterSize :=
  C2_CallMethod_frame (GPFIFO.new fun _ => 0) 7 2 6 (by decide) (by decide) (by decide)

/-- C4: for every finite sequence of `CallMethod` calls with method indices in
`[0, 64)` and 32-bit arguments, and every index `m` written at least once in
it, the sequence has a last call whose method index is `m`, and the raw
register at `m` after the whole sequence equals the argument of that call. -/
theorem C4_last_write_wins (g : GPFIFO) (calls : List MethodParams) (m : Nat)
    (hvalid : ∀ p ∈ calls, p.method < constant.GpfifoRegisterSize ∧ p.argument < 2 ^ 32)
    (hwritten : ∃ p ∈ calls, p.method = m) :
    ∃ front a back, calls = front ++ ⟨m, a⟩ :: back ∧ (∀ p ∈ back, p.method ≠ m) ∧
      (g.CallMethods calls).raw m = a := by
  obtain ⟨front, a, back, hsplit, hback⟩ := exists_last_call calls m hwritten
  refine ⟨front, a, back, hsplit, hback, ?_⟩
  have ha : a < 2 ^ 32 := by
    have := (hvalid ⟨m, a⟩ (by rw [hsplit]; simp)).2
    exact this
  rw [hsplit, CallMethods_append, CallMethods_cons,
    raw_CallMethods_of_not_written back m hback, raw_CallMethod_self, Nat.mod_eq_of_lt ha]

theorem C4_last_write_wins_witness :
    ∃ front a back,
      [(⟨6, 10⟩ : MethodParams), ⟨7, 1⟩, ⟨6, 11⟩, ⟨5, 3⟩] = front ++ ⟨6, a⟩ :: back ∧
      (∀ p ∈ back, p.method ≠ 6) ∧
      ((GPFIFO.new fun _ => 0).CallMethods [⟨6, 10⟩, ⟨7, 1⟩, ⟨6, 11⟩, ⟨5, 3⟩]).raw 6 = a :=
  C4_last_write_wins (GPFIFO.new fun _ => 0) [⟨6, 10⟩, ⟨7, 1⟩, ⟨6, 11⟩, ⟨5, 3⟩] 6
    (by decide) ⟨⟨6, 10⟩, by decide, rfl⟩

/-- C5: the register file occupies exactly 64 32-bit words, 256 bytes. The
named view takes 33 words (132 bytes, indices 0..32, the last member `yield`
sitting at index 32), it fits inside the 64-word raw view, and the size of the
union of both views is `GpfifoRegisterSize * 4 = GpfifoRegisterSize << 2 = 256`
bytes, which is what the `static_assert` behind the union demands. -/
theorem C5_register_file_size :
    constant.GpfifoRegisterSize = 64 ∧
      rawSize = 64 * 4 ∧
      namedSize = 33 * 4 ∧
      wordRange "setObject" = some (0, 1) ∧
      wordRange "yield" = some (32, 1) ∧
      namedSize ≤ rawSize ∧
      sizeofRegs = constant.GpfifoRegisterSize * 4 ∧
      sizeofRegs = constant.GpfifoRegisterSize <<< 2 ∧
      sizeofRegs = 256 := by
  decide

/-- C6: the named fields of the register file occupy pairwise disjoint word
ranges of the raw view, each inside `[0, 64)`: setObject 0, illegal 1, nop 2,
semaphore 4..7, nonStallInterrupt 8, fbFlush 9, memOpC 12, memOpD 13,
setReference 20, syncpoint 28..29, wfi 30, crcCheck 31, yield 32. Every member
of the named view, padding included, starts and ends on a word boundary and
ends by word 64, and no raw index belongs to two members. -/
theorem C6_named_fields_disjoint :
    wordRange "setObject" = some (0, 1) ∧
      wordRange "illegal" = some (1, 1) ∧
      wordRange "nop" = some (2, 1) ∧
      wordRange "semaphore" = some (4, 4) ∧
      wordRange "nonStallInterrupt" = some (8, 1) ∧
      wordRange "fbFlush" = some (9, 1) ∧
      wordRange "memOpC" = some (12, 1) ∧
      wordRange "memOpD" = some (13, 1) ∧
      wordRange "setReference" = some (20, 1) ∧
      wordRange "syncpoint" = some (28, 2) ∧
      wordRange "wfi" = some (30, 1) ∧
      wordRange "crcCheck" = some (31, 1) ∧
      wordRange "yield" = some (32, 1) ∧
      (namedView.map Member.name).Nodup ∧
      (∀ p ∈ namedLayout, p.offset % 4 = 0 ∧ p.member.size % 4 = 0 ∧
        (p.offset + p.member.size) / 4 ≤ constant.GpfifoRegisterSize) ∧
      (∀ i, i < constant.GpfifoRegisterSize →
        ((namedView.map Member.name).filter fun name => covers name i).length ≤ 1) := by
  decide

/-- C7: the semaphore descriptor is four consecutive raw words in the order
offset-high (`offsetUpper`), offset-low (`offsetLower`), `payload`, control
(raw indices 4, 5, 6, 7) and the syncpoint descriptor is two consecutive raw
words in the order `payload`, control (raw indices 28, 29), the control word
being the last word of each descriptor; the payload read through the named
view after `CallMethod(6, p)`, respectively `CallMethod(28, p)`, equals `p`. -/
theorem C7_descriptor_word_order (g : GPFIFO) (p : Nat) (hp : p < 2 ^ 32) :
    wordRange "semaphore" = some (4, 4) ∧
      (locate ["semaphore", "offsetUpper"]).map (fun l => l.word) = some 4 ∧
      (locate ["semaphore", "offsetLower"]).map (fun l => l.word) = some 5 ∧
      locate ["semaphore", "payload"] = some ⟨6, 0, 32, false⟩ ∧
      (∀ f ∈ semaphoreControlFields,
        (locate ["semaphore", f.name]).map (fun l => l.word) = some 7) ∧
      wordRange "syncpoint" = some (28, 2) ∧
      locate ["syncpoint", "payload"] = some ⟨28, 0, 32, false⟩ ∧
      (∀ f ∈ syncpointControlFields,
        (locate ["syncpoint", f.name]).map (fun l => l.word) = some 29) ∧
      (g.CallMethod ⟨6, p⟩).field ["semaphore", "payload"] = some (p : Int) ∧
      (g.CallMethod ⟨28, p⟩).field ["syncpoint", "payload"] = some (p : Int) := by
  refine ⟨by decide, by decide, by decide, by decide, by decide, by decide, by decide,
    by decide, ?_, ?_⟩
  · rw [field_CallMethod ["semaphore", "payload"] ⟨6, 0, 32, false⟩ (by decide) g p hp]
    simp only [Bool.false_eq_true, false_and, if_false, pow_zero, Nat.div_one,
      Nat.mod_eq_of_lt hp]
  · rw [field_CallMethod ["syncpoint", "payload"] ⟨28, 0, 32, false⟩ (by decide) g p hp]
    simp only [Bool.false_eq_true, false_and, if_false, pow_zero, Nat.div_one,
      Nat.mod_eq_of_lt hp]

theorem C7_descriptor_word_order_witness :
    wordRange "semaphore" = some (4, 4) ∧
      (locate ["semaphore", "offsetUpper"]).map (fun l => l.word) = some 4 ∧
      (locate ["semaphore", "offsetLower"]).map (fun l => l.word) = some 5 ∧
      locate ["semaphore", "payload"] = some ⟨6, 0, 32, false⟩ ∧
      (∀ f ∈ semaphoreControlFields,
        (locate ["semaphore", f.name]).map (fun l => l.word) = some 7) ∧
      wordRange "syncpoint" = some (28, 2) ∧
      locate ["syncpoint", "payload"] = some ⟨28, 0, 32, false⟩ ∧
      (∀ f ∈ syncpointControlFields,
        (locate ["syncpoint", f.name]).map (fun l => l.word) = some 29) ∧
      ((GPFIFO.new fun _ => 0).CallMethod ⟨6, 0xCAFE⟩).field ["semaphore", "payload"] =
        some ((0xCAFE : Nat) : Int) ∧
      ((GPFIFO.new fun _ => 0).CallMethod ⟨28, 0xCAFE⟩).field ["syncpoint", "payload"] =
        some ((0xCAFE : Nat) : Int) :=
  C7_descriptor_word_order (GPFIFO.new fun _ => 0) 0xCAFE (by decide)

/-- C8, on the code: the layout of the semaphore control word is the one the
claim gives. After `CallMethod(7, w)` the fields hold the claimed bit slices
of `w` (operation bits 0..4, acquireSwitch bit 12, releaseWfi bit 20,
releaseSize bit 24, reduction bits 27..30, format bit 31), and with the four
padding fields (bits 5..11, 13..19, 21..23, 25..26) they are placed back to
back, every one of the 32 bits belonging to exactly one of the ten fields. But
the six fields are bit-fields of `enum class` types whose underlying type is
`int`, so a read through the named view takes the top bit of a field as the
sign: it yields the slice only while that bit is clear, and the slice less
`2 ^ width` otherwise. At `w = 0x10` the operation reads -16 where the slice
is 16 (`Reduction`); at `w = 0x1000` the acquire switch reads -1 where the
slice is 1 (`Enabled`). -/
theorem C8_semaphore_control_reads :
    (∀ (g : GPFIFO) (w : Nat), w < 2 ^ 32 →
        (g.CallMethod ⟨7, w⟩).fieldBits ["semaphore", "operation"] = some (w % 2 ^ 5) ∧
        (g.CallMethod ⟨7, w⟩).fieldBits ["semaphore", "acquireSwitch"] =
          some (w / 2 ^ 12 % 2) ∧
        (g.CallMethod ⟨7, w⟩).fieldBits ["semaphore", "releaseWfi"] = some (w / 2 ^ 20 % 2) ∧
        (g.CallMethod ⟨7, w⟩).fieldBits ["semaphore", "releaseSize"] =
          some (w / 2 ^ 24 % 2) ∧
        (g.CallMethod ⟨7, w⟩).fieldBits ["semaphore", "reduction"] =
          some (w / 2 ^ 27 % 2 ^ 4) ∧
        (g.CallMethod ⟨7, w⟩).fieldBits ["semaphore", "format"] = some (w / 2 ^ 31 % 2) ∧
        (g.CallMethod ⟨7, w⟩).field ["semaphore", "operation"] =
          some (if 2 ^ 4 ≤ w % 2 ^ 5 then ((w % 2 ^ 5 : Nat) : Int) - 2 ^ 5
            else ((w % 2 ^ 5 : Nat) : Int)) ∧
        (g.CallMethod ⟨7, w⟩).field ["semaphore", "acquireSwitch"] =
          some (-((w / 2 ^ 12 % 2 : Nat) : Int)) ∧
        (g.CallMethod ⟨7, w⟩).field ["semaphore", "releaseWfi"] =
          some (-((w / 2 ^ 20 % 2 : Nat) : Int)) ∧
        (g.CallMethod ⟨7, w⟩).field ["semaphore", "releaseSize"] =
          some (-((w / 2 ^ 24 % 2 : Nat) : Int)) ∧
        (g.CallMethod ⟨7, w⟩).field ["semaphore", "reduction"] =
          some (if 2 ^ 3 ≤ w / 2 ^ 27 % 2 ^ 4 then ((w / 2 ^ 27 % 2 ^ 4 : Nat) : Int) - 2 ^ 4
            else ((w / 2 ^ 27 % 2 ^ 4 : Nat) : Int)) ∧
        (g.CallMethod ⟨7, w⟩).field ["semaphore", "format"] =
          some (-((w / 2 ^ 31 % 2 : Nat) : Int))) ∧
      ((placeBitFields true 0 semaphoreControlFields).map
          fun p => (p.field.name, p.offset, p.offset + p.field.width - 1)) =
        [("operation", 0, 4), ("_pad2_", 5, 11), ("acquireSwitch", 12, 12),
          ("_pad3_", 13, 19), ("releaseWfi", 20, 20), ("_pad4_", 21, 23),
          ("releaseSize", 24, 24), ("_pad5_", 25, 26), ("reduction", 27, 30),
          ("format", 31, 31)] ∧
      (∀ b, b < 32 →
        ((placeBitFields true 0 semaphoreControlFields).filter
          fun p => p.offset ≤ b ∧ b < p.offset + p.field.width).length = 1) ∧
      ((GPFIFO.new fun _ => 0).CallMethod ⟨7, 0x10⟩).fieldBits ["semaphore", "operation"] =
        some 16 ∧
      ((GPFIFO.new fun _ => 0).CallMethod ⟨7, 0x10⟩).field ["semaphore", "operation"] =
        some (-16) ∧
      ((GPFIFO.new fun _ => 0).CallMethod ⟨7, 0x1000⟩).fieldBits
        ["semaphore", "acquireSwitch"] = some 1 ∧
      ((GPFIFO.new fun _ => 0).CallMethod ⟨7, 0x1000⟩).field
        ["semaphore", "acquireSwitch"] = some (-1) := by
  have one_bit : ∀ n : Nat,
      (if (2 : Nat) ^ (1 - 1) ≤ n % 2 ^ 1 then ((n % 2 ^ 1 : Nat) : Int) - 2 ^ 1
        else ((n % 2 ^ 1 : Nat) : Int)) = -((n % 2 : Nat) : Int) := by
    intro n
    simp only [pow_one, Nat.sub_self, pow_zero]
    rcases Nat.mod_two_eq_zero_or_one n with h | h <;> rw [h] <;> simp
  refine ⟨fun g w hw => ⟨?_, ?_, ?_, ?_, ?_, ?_, ?_, ?_, ?_, ?_, ?_, ?_⟩, by decide, by decide,
    by decide, by decide, by decide, by decide⟩
  · rw [fieldBits_CallMethod ["semaphore", "operation"] ⟨7, 0, 5, true⟩ (by decide) g w hw]
    simp only [pow_zero, Nat.div_one]
  · exact fieldBits_CallMethod ["semaphore", "acquireSwitch"] ⟨7, 12, 1, true⟩ (by decide) g w hw
  · exact fieldBits_CallMethod ["semaphore", "releaseWfi"] ⟨7, 20, 1, true⟩ (by decide) g w hw
  · exact fieldBits_CallMethod ["semaphore", "releaseSize"] ⟨7, 24, 1, true⟩ (by decide) g w hw
  · exact fieldBits_CallMethod ["semaphore", "reduction"] ⟨7, 27, 4, true⟩ (by decide) g w hw
  · exact fieldBits_CallMethod ["semaphore", "format"] ⟨7, 31, 1, true⟩ (by decide) g w hw
  · rw [field_CallMethod ["semaphore", "operation"] ⟨7, 0, 5, true⟩ (by decide) g w hw]
    simp only [pow_zero, Nat.div_one, true_and]
  · rw [field_CallMethod ["semaphore", "acquireSwitch"] ⟨7, 12, 1, true⟩ (by decide) g w hw]
    simp only [true_and]
    exact congrArg some (one_bit (w / 2 ^ 12))
  · rw [field_CallMethod ["semaphore", "releaseWfi"] ⟨7, 20, 1, true⟩ (by decide) g w hw]
    simp only [true_and]
    exact congrArg some (one_bit (w / 2 ^ 20))
  · rw [field_CallMethod ["semaphore", "releaseSize"] ⟨7, 24, 1, true⟩ (by decide) g w hw]
    simp only [true_and]
    exact congrArg some (one_bit (w / 2 ^ 24))
  · rw [field_CallMethod ["semaphore", "reduction"] ⟨7, 27, 4, true⟩ (by decide) g w hw]
    simp only [true_and]
  · rw [field_CallMethod ["semaphore", "format"] ⟨7, 31, 1, true⟩ (by decide) g w hw]
    simp only [true_and]
    exact congrArg some (one_bit (w / 2 ^ 31))

/-- C9, as stated, fails: the all-zero control word decodes to the operation
value 0, which is the value of no enumerator of `SemaphoreOperation`. -/
theorem C9_unnamed_operation_counterexample :
    ((GPFIFO.new fun _ => 0).CallMethod ⟨7, 0⟩).field ["semaphore", "operation"] = some 0 ∧
      ∀ e : SemaphoreOperation, e.value ≠ 0 := by
  refine ⟨by decide, fun e => ?_⟩
  cases e <;> decide

/-- C9, amended: the fields of the semaphore control word are decoded without
validation, so a decoded field is one of its enumerated values when its bits
hold an enumerated encoding. For every 32-bit control word `w`: when bits 0..4
hold a value below 16 the operation decodes to that value, which is Acquire,
Release, AcqGeq or AcqAnd for 1, 2, 4 and 8 and no enumerator for any other
such value; when bits 27..30 hold a value below 8 the reduction op decodes to
the enumerator among Min..Dec with that value; when the bit of acquireSwitch,
releaseWfi, releaseSize or format is 0 the field decodes to its enumerator of
value 0. -/
theorem C9_enumerated_encodings_decode (g : GPFIFO) (w : Nat) (hw : w < 2 ^ 32) :
    (w % 2 ^ 5 < 16 →
        (g.CallMethod ⟨7, w⟩).field ["semaphore", "operation"] = some ((w % 2 ^ 5 : Nat) : Int)) ∧
      (∀ e : SemaphoreOperation, e ≠ .Reduction → ((w % 2 ^ 5 : Nat) : Int) = e.value →
        (g.CallMethod ⟨7, w⟩).field ["semaphore", "operation"] = some e.value) ∧
      (w % 2 ^ 5 < 16 → w % 2 ^ 5 ∉ [1, 2, 4, 8] → ∀ e : SemaphoreOperation,
        (g.CallMethod ⟨7, w⟩).field ["semaphore", "operation"] ≠ some e.value) ∧
      (w / 2 ^ 27 % 2 ^ 4 < 8 → ∃ e : SemaphoreReduction,
        e.value = ((w / 2 ^ 27 % 2 ^ 4 : Nat) : Int) ∧
        (g.CallMethod ⟨7, w⟩).field ["semaphore", "reduction"] = some e.value) ∧
      (w / 2 ^ 12 % 2 = 0 → (g.CallMethod ⟨7, w⟩).field ["semaphore", "acquireSwitch"] =
        some SemaphoreAcquireSwitch.Disabled.value) ∧
      (w / 2 ^ 20 % 2 = 0 → (g.CallMethod ⟨7, w⟩).field ["semaphore", "releaseWfi"] =
        some SemaphoreReleaseWfi.En.value) ∧
      (w / 2 ^ 24 % 2 = 0 → (g.CallMethod ⟨7, w⟩).field ["semaphore", "releaseSize"] =
        some SemaphoreReleaseSize.SixteenBytes.value) ∧
      (w / 2 ^ 31 % 2 = 0 → (g.CallMethod ⟨7, w⟩).field ["semaphore", "format"] =
        some SemaphoreFormat.Signed.value) := by
  have hop : w % 2 ^ 5 < 16 →
      (g.CallMethod ⟨7, w⟩).field ["semaphore", "operation"] =
        some ((w % 2 ^ 5 : Nat) : Int) := by
    intro h
    rw [field_CallMethod ["semaphore", "operation"] ⟨7, 0, 5, true⟩ (by decide) g w hw]
    simp only [pow_zero, Nat.div_one]
    rw [if_neg]
    rintro ⟨-, h16⟩
    norm_num at h16
    omega
  refine ⟨hop, ?_, ?_, ?_, ?_, ?_, ?_, ?_⟩
  · intro e hne he
    have hlt : w % 2 ^ 5 < 16 := by
      cases e <;> simp only [SemaphoreOperation.value] at he <;> first | omega | exact absurd rfl hne
    rw [hop hlt, he]
  · intro hlt hnot e
    rw [hop hlt]
    intro heq
    have hv : ((w % 2 ^ 5 : Nat) : Int) = e.value := Option.some.inj heq
    apply hnot
    cases e <;> simp only [SemaphoreOperation.value] at hv <;>
      simp only [List.mem_cons, List.mem_singleton] <;> omega
  · intro hlt
    obtain ⟨e, he⟩ := exists_reduction_of_lt _ hlt
    refine ⟨e, he, ?_⟩
    rw [field_CallMethod ["semaphore", "reduction"] ⟨7, 27, 4, true⟩ (by decide) g w hw, he]
    rw [if_neg]
    rintro ⟨-, h8⟩
    norm_num at h8
    omega
  · intro h
    rw [field_CallMethod ["semaphore", "acquireSwitch"] ⟨7, 12, 1, true⟩ (by decide) g w hw]
    simp only [pow_one, h]
    simp [SemaphoreAcquireSwitch.value]
  · intro h
    rw [field_CallMethod ["semaphore", "releaseWfi"] ⟨7, 20, 1, true⟩ (by decide) g w hw]
    simp only [pow_one, h]
    simp [SemaphoreReleaseWfi.value]
  · intro h
    rw [field_CallMethod ["semaphore", "releaseSize"] ⟨7, 24, 1, true⟩ (by decide) g w hw]
    simp only [pow_one, h]
    simp [SemaphoreReleaseSize.value]
  · intro h
    rw [field_CallMethod ["semaphore", "format"] ⟨7, 31, 1, true⟩ (by decide) g w hw]
    simp only [pow_one, h]
    simp [SemaphoreFormat.value]

theorem C9_enumerated_encodings_decode_witness :
    ((GPFIFO.new fun _ => 0).CallMethod ⟨7, 0x18000002⟩).field ["semaphore", "operation"] =
        some SemaphoreOperation.Release.value ∧
      (∃ e : SemaphoreReduction, e.value = ((0x18000002 / 2 ^ 27 % 2 ^ 4 : Nat) : Int) ∧
        ((GPFIFO.new fun _ => 0).CallMethod ⟨7, 0x18000002⟩).field ["semaphore", "reduction"] =
          some e.value) ∧
      ((GPFIFO.new fun _ => 0).CallMethod ⟨7, 0x18000002⟩).field ["semaphore", "acquireSwitch"] =
        some SemaphoreAcquireSwitch.Disabled.value :=
  ⟨(C9_enumerated_encodings_decode (GPFIFO.new fun _ => 0) 0x18000002 (by decide)).2.1
      .Release (by decide) (by decide),
    (C9_enumerated_encodings_decode (GPFIFO.new fun _ => 0) 0x18000002 (by decide)).2.2.2.1
      (by decide),
    (C9_enumerated_encodings_decode (GPFIFO.new fun _ => 0) 0x18000002 (by decide)).2.2.2.2.1
      (by decide)⟩

/-- C10, on the code: the layout of the syncpoint control word is the one the
claim gives (after `CallMethod(29, w)` the field `operation` holds bit 0 of
`w`, `waitSwitch` bit 4 and `index` bits 8..19, and `index`, declared `u16`,
reads as that number, below 4096), but `operation` and `waitSwitch` are
one-bit bit-fields of `enum class` types whose underlying type is `int`, so a
set bit reads as -1. At `w = 1` the operation reads -1, which is neither
`Wait` (0) nor `Incr` (1); at `w = 16` the wait switch reads -1, which is
neither `Dis` (0) nor `En` (1). -/
theorem C10_syncpoint_control_reads :
    (∀ (g : GPFIFO) (w : Nat), w < 2 ^ 32 →
        (g.CallMethod ⟨29, w⟩).fieldBits ["syncpoint", "operation"] = some (w % 2) ∧
        (g.CallMethod ⟨29, w⟩).fieldBits ["syncpoint", "waitSwitch"] = some (w / 2 ^ 4 % 2) ∧
        (g.CallMethod ⟨29, w⟩).fieldBits ["syncpoint", "index"] = some (w / 2 ^ 8 % 2 ^ 12) ∧
        (g.CallMethod ⟨29, w⟩).field ["syncpoint", "index"] =
          some ((w / 2 ^ 8 % 2 ^ 12 : Nat) : Int) ∧
        w / 2 ^ 8 % 2 ^ 12 < 4096 ∧
        (g.CallMethod ⟨29, w⟩).field ["syncpoint", "operation"] =
          some (-((w % 2 : Nat) : Int)) ∧
        (g.CallMethod ⟨29, w⟩).field ["syncpoint", "waitSwitch"] =
          some (-((w / 2 ^ 4 % 2 : Nat) : Int))) ∧
      ((GPFIFO.new fun _ => 0).CallMethod ⟨29, 1⟩).field ["syncpoint", "operation"] =
        some (-1) ∧
      (∀ e : SyncpointOperation, e.value ≠ -1) ∧
      ((GPFIFO.new fun _ => 0).CallMethod ⟨29, 16⟩).field ["syncpoint", "waitSwitch"] =
        some (-1) ∧
      (∀ e : SyncpointWaitSwitch, e.value ≠ -1) := by
  refine ⟨fun g w hw => ⟨?_, ?_, ?_, ?_, ?_, ?_, ?_⟩, by decide, fun e => ?_, by decide,
    fun e => ?_⟩
  · rw [fieldBits_CallMethod ["syncpoint", "operation"] ⟨29, 0, 1, true⟩ (by decide) g w hw]
    simp only [pow_zero, Nat.div_one, pow_one]
  · exact fieldBits_CallMethod ["syncpoint", "waitSwitch"] ⟨29, 4, 1, true⟩ (by decide) g w hw
  · exact fieldBits_CallMethod ["syncpoint", "index"] ⟨29, 8, 12, false⟩ (by decide) g w hw
  · rw [field_CallMethod ["syncpoint", "index"] ⟨29, 8, 12, false⟩ (by decide) g w hw]
    simp only [Bool.false_eq_true, false_and, if_false]
  · exact Nat.mod_lt _ (by decide)
  · rw [field_CallMethod ["syncpoint", "operation"] ⟨29, 0, 1, true⟩ (by decide) g w hw]
    simp only [pow_zero, Nat.div_one, pow_one, Nat.sub_self, true_and]
    rcases Nat.mod_two_eq_zero_or_one w with h | h <;> rw [h] <;> simp
  · rw [field_CallMethod ["syncpoint", "waitSwitch"] ⟨29, 4, 1, true⟩ (by decide) g w hw]
    simp only [pow_zero, pow_one, Nat.sub_self, true_and]
    rcases Nat.mod_two_eq_zero_or_one (w / 2 ^ 4) with h | h <;> rw [h] <;> simp
  · cases e <;> decide
  · cases e <;> decide

/-! ## Shared facts for the remaining claims -/

/-- Two states of the engine with the same words are the same state. -/
theorem GPFIFO.ext_word (g h : GPFIFO) (hw : ∀ i, g.word i = h.word i) : g = h := by
  cases g
  cases h
  congr
  exact funext hw

/-- A store leaves the value read from a field located in another word
alone. -/
theorem read_CallMethod_other (l : FieldLoc) (g : GPFIFO) (m a : Nat) (h : l.word ≠ m) :
    l.read (g.CallMethod ⟨m, a⟩) = l.read g := by
  simp only [FieldLoc.read, FieldLoc.bits, raw_CallMethod_other g m a l.word h]

/-- Every field of the named view lies in a word of the member it belongs
to. -/
theorem covers_memberOf : ∀ f ∈ namedFields, covers (memberOf f.1) f.2.word = true := by
  decide

/-- A word of a member holds fields of that member only. -/
theorem memberOf_of_covers :
    ∀ f ∈ namedFields, ∀ name ∈ namedView.map Member.name,
      covers name f.2.word = true → memberOf f.1 = name := by
  decide

/-- The value of a field of the named view is the value read at its
location. -/
theorem field_eq_read (g : GPFIFO) (path : List String) (l : FieldLoc)
    (h : locate path = some l) : g.field path = some (l.read g) := by
  simp only [GPFIFO.field, h, Option.map_some']

/-- The value read from an unsigned field is the number its bits hold. -/
theorem read_of_unsigned (l : FieldLoc) (g : GPFIFO) (h : l.signed = false) :
    l.read g = (l.bits g : Int) := by
  simp [FieldLoc.read, h]

/-- C11: for every 32-bit word `w`, after `CallMethod(0, w)` the object-bind
descriptor read through the named view has the class id `nvClass = w mod 2^16`
(bits 0..15) and the engine id `engine = (w / 2^16) mod 32` (bits 16..20), the
remaining 11 bits (21..31) being padding. The unit only stores the value: the
call changes no other word and sends its collaborators nothing but the
diagnostic trace. -/
theorem C11_setObject_decode (g : GPFIFO) (w : Nat) (hw : w < 2 ^ 32) :
    (g.CallMethod ⟨0, w⟩).field ["setObject", "nvClass"] = some ((w % 2 ^ 16 : Nat) : Int) ∧
      (g.CallMethod ⟨0, w⟩).field ["setObject", "engine"] =
        some ((w / 2 ^ 16 % 32 : Nat) : Int) ∧
      ((placeBitFields false 0 setObjectFields).map
          fun p => (p.field.name, p.offset, p.offset + p.field.width - 1)) =
        [("nvClass", 0, 15), ("engine", 16, 20), ("_pad_", 21, 31)] ∧
      wordRange "setObject" = some (0, 1) ∧
      (∀ i, i ≠ 0 → (g.CallMethod ⟨0, w⟩).word i = g.word i) ∧
      GPFIFO.CallMethodRequests ⟨0, w⟩ = [.trace 0 w] := by
  refine ⟨?_, ?_, by decide, by decide, fun i hi => ?_, rfl⟩
  · rw [field_CallMethod ["setObject", "nvClass"] ⟨0, 0, 16, false⟩ (by decide) g w hw]
    simp only [Bool.false_eq_true, false_and, if_false, pow_zero, Nat.div_one]
  · rw [field_CallMethod ["setObject", "engine"] ⟨0, 16, 5, false⟩ (by decide) g w hw]
    simp only [Bool.false_eq_true, false_and, if_false]
    rfl
  · simp [word_CallMethod, hi]

theorem C11_setObject_decode_witness :
    ((GPFIFO.new fun _ => 0).CallMethod ⟨0, 0x6B197⟩).field ["setObject", "nvClass"] =
        some ((0x6B197 % 2 ^ 16 : Nat) : Int) ∧
      ((GPFIFO.new fun _ => 0).CallMethod ⟨0, 0x6B197⟩).field ["setObject", "engine"] =
        some ((0x6B197 / 2 ^ 16 % 32 : Nat) : Int) ∧
      ((placeBitFields false 0 setObjectFields).map
          fun p => (p.field.name, p.offset, p.offset + p.field.width - 1)) =
        [("nvClass", 0, 15), ("engine", 16, 20), ("_pad_", 21, 31)] ∧
      wordRange "setObject" = some (0, 1) ∧
      (∀ i, i ≠ 0 →
        ((GPFIFO.new fun _ => 0).CallMethod ⟨0, 0x6B197⟩).word i =
          (GPFIFO.new fun _ => 0).word i) ∧
      GPFIFO.CallMethodRequests ⟨0, 0x6B197⟩ = [.trace 0 0x6B197] :=
  C11_setObject_decode (GPFIFO.new fun _ => 0) 0x6B197 (by decide)

/-- C12, as stated, fails: after the offset words (address
`0x12 * 2^32 + 0x3456789C`) and the payload `0xCAFE`, the control word
`0x81000002` (operation bits = 2 = Release, acquireSwitch bit = 0 = Disabled,
releaseSize bit = 1 = FourBytes, format bit = 1 = Unsigned) is written, and
the four calls send no request to semaphore memory at all: the write of the
payload the claim counts once does not occur. -/
theorem C12_no_release_write_counterexample :
    ((GPFIFO.new fun _ => 0).CallMethods
        [⟨4, 0x12⟩, ⟨5, 0x3456789C⟩, ⟨6, 0xCAFE⟩, ⟨7, 0x81000002⟩]).fieldBits
          ["semaphore", "operation"] = some 2 ∧
      ((GPFIFO.new fun _ => 0).CallMethods
        [⟨4, 0x12⟩, ⟨5, 0x3456789C⟩, ⟨6, 0xCAFE⟩, ⟨7, 0x81000002⟩]).fieldBits
          ["semaphore", "acquireSwitch"] = some 0 ∧
      ((GPFIFO.new fun _ => 0).CallMethods
        [⟨4, 0x12⟩, ⟨5, 0x3456789C⟩, ⟨6, 0xCAFE⟩, ⟨7, 0x81000002⟩]).fieldBits
          ["semaphore", "releaseSize"] = some 1 ∧
      ((GPFIFO.new fun _ => 0).CallMethods
        [⟨4, 0x12⟩, ⟨5, 0x3456789C⟩, ⟨6, 0xCAFE⟩, ⟨7, 0x81000002⟩]).fieldBits
          ["semaphore", "format"] = some 1 ∧
      (GPFIFO.CallMethodsRequests
        [⟨4, 0x12⟩, ⟨5, 0x3456789C⟩, ⟨6, 0xCAFE⟩, ⟨7, 0x81000002⟩]).count
          (.memoryWrite (0x12 * 2 ^ 32 + 0x3456789C) 4 0xCAFE) = 0 ∧
      (GPFIFO.CallMethodsRequests
        [⟨4, 0x12⟩, ⟨5, 0x3456789C⟩, ⟨6, 0xCAFE⟩, ⟨7, 0x81000002⟩]).filter
          Request.isMemory = [] := by
  decide

/-- C12, amended: writing the offset-high, offset-low and payload words and
then the semaphore control word (method 7), whatever the words are, stores
each of the four words in its raw register (`raw[4]`, `raw[5]`, `raw[6]`,
`raw[7]`) and does nothing else: no other word changes and the calls send
their collaborators the four diagnostic traces only, so no write of the
payload to memory and no acquire is performed. -/
theorem C12_semaphore_control_only_stored (g : GPFIFO) (h l p w : Nat) :
    GPFIFO.CallMethodsRequests [⟨4, h⟩, ⟨5, l⟩, ⟨6, p⟩, ⟨7, w⟩] =
        [.trace 4 h, .trace 5 l, .trace 6 p, .trace 7 w] ∧
      (∀ r ∈ GPFIFO.CallMethodsRequests [⟨4, h⟩, ⟨5, l⟩, ⟨6, p⟩, ⟨7, w⟩],
        r.isMemory = false) ∧
      (g.CallMethods [⟨4, h⟩, ⟨5, l⟩, ⟨6, p⟩, ⟨7, w⟩]).raw 4 = h % 2 ^ 32 ∧
      (g.CallMethods [⟨4, h⟩, ⟨5, l⟩, ⟨6, p⟩, ⟨7, w⟩]).raw 5 = l % 2 ^ 32 ∧
      (g.CallMethods [⟨4, h⟩, ⟨5, l⟩, ⟨6, p⟩, ⟨7, w⟩]).raw 6 = p % 2 ^ 32 ∧
      (g.CallMethods [⟨4, h⟩, ⟨5, l⟩, ⟨6, p⟩, ⟨7, w⟩]).raw 7 = w % 2 ^ 32 ∧
      (∀ i, i ∉ [4, 5, 6, 7] →
        (g.CallMethods [⟨4, h⟩, ⟨5, l⟩, ⟨6, p⟩, ⟨7, w⟩]).word i = g.word i) := by
  refine ⟨rfl, ?_, ?_, ?_, ?_, ?_, fun i hi => ?_⟩
  · intro r hr
    simp only [GPFIFO.CallMethodsRequests, GPFIFO.CallMethodRequests, List.map_cons,
      List.map_nil, List.flatten, List.singleton_append, List.mem_cons,
      List.not_mem_nil, or_false] at hr
    rcases hr with rfl | rfl | rfl | rfl <;> rfl
  · simp [GPFIFO.CallMethods, GPFIFO.raw, word_CallMethod]
  · simp [GPFIFO.CallMethods, GPFIFO.raw, word_CallMethod]
  · simp [GPFIFO.CallMethods, GPFIFO.raw, word_CallMethod]
  · simp [GPFIFO.CallMethods, GPFIFO.raw, word_CallMethod]
  · simp only [List.mem_cons, List.not_mem_nil, or_false, not_or] at hi
    simp [GPFIFO.CallMethods, word_CallMethod, hi.1, hi.2.1, hi.2.2.1, hi.2.2.2]

/-- C13, as stated, fails: the control word `0x501` (operation bit = 1 = Incr,
index = 5) is written to method 29 and the counter of syncpoint 5, which was
0, is still 0: the call sends the syncpoint unit no request. -/
theorem C13_no_increment_counterexample :
    ((GPFIFO.new fun _ => 0).CallMethod ⟨29, 0x501⟩).fieldBits
        ["syncpoint", "operation"] = some 1 ∧
      ((GPFIFO.new fun _ => 0).CallMethod ⟨29, 0x501⟩).fieldBits
        ["syncpoint", "index"] = some 5 ∧
      syncpointsAfter (fun _ => 0) (GPFIFO.CallMethodRequests ⟨29, 0x501⟩) 5 = 0 ∧
      (GPFIFO.CallMethodRequests ⟨29, 0x501⟩).filter Request.isSyncpoint = [] := by
  decide

/-- C13, amended: writing the syncpoint control word (method 29), whatever its
operation and index, stores the word in `raw[29]` and does nothing else: the
call sends the syncpoint unit no request, so every syncpoint counter keeps its
value. -/
theorem C13_syncpoint_control_only_stored (g : GPFIFO) (counters : Nat → Nat) (w : Nat) :
    GPFIFO.CallMethodRequests ⟨29, w⟩ = [.trace 29 w] ∧
      (∀ r ∈ GPFIFO.CallMethodRequests ⟨29, w⟩, r.isSyncpoint = false) ∧
      (∀ i, syncpointsAfter counters (GPFIFO.CallMethodRequests ⟨29, w⟩) i = counters i) ∧
      (g.CallMethod ⟨29, w⟩).raw 29 = w % 2 ^ 32 ∧
      (∀ i, i ≠ 29 → (g.CallMethod ⟨29, w⟩).word i = g.word i) := by
  refine ⟨rfl, ?_, fun i => rfl, raw_CallMethod_self g 29 w, fun i hi => ?_⟩
  · intro r hr
    simp only [GPFIFO.CallMethodRequests, List.mem_singleton] at hr
    subst hr
    rfl
  · simp [word_CallMethod, hi]

/-- C14, as stated, fails: `CallMethod(1, 0)` raises no fault notification. -/
theorem C14_no_fault_counterexample :
    wordRange "illegal" = some (1, 1) ∧
      (GPFIFO.CallMethodRequests ⟨1, 0⟩).count .fault = 0 := by
  decide

/-- C14, amended: for every argument `a`, `CallMethod(1, a)` (the slot
`illegal`) raises no fault notification: it stores the argument in `raw[1]`
like a write to any other slot, sends the diagnostic trace only, and changes
no other register. -/
theorem C14_illegal_only_stored (g : GPFIFO) (a : Nat) :
    GPFIFO.CallMethodRequests ⟨1, a⟩ = [.trace 1 a] ∧
      (GPFIFO.CallMethodRequests ⟨1, a⟩).count .fault = 0 ∧
      (g.CallMethod ⟨1, a⟩).raw 1 = a % 2 ^ 32 ∧
      (∀ j, j ≠ 1 → (g.CallMethod ⟨1, a⟩).raw j = g.raw j) := by
  refine ⟨rfl, ?_, raw_CallMethod_self g 1 a, fun j hj => raw_CallMethod_other g 1 a j hj⟩
  simp [GPFIFO.CallMethodRequests]

/-- C15, as stated, fails: the semaphore control words `0` (operation bits 0,
no enumerated operation) and `0x40000001` (reduction bits 8, no enumerated
reduction) are written to method 7 and no fault is reported. -/
theorem C15_no_fault_on_reserved_counterexample :
    ((GPFIFO.new fun _ => 0).CallMethod ⟨7, 0⟩).fieldBits ["semaphore", "operation"] =
        some 0 ∧
      (GPFIFO.CallMethodRequests ⟨7, 0⟩).count .fault = 0 ∧
      ((GPFIFO.new fun _ => 0).CallMethod ⟨7, 0x40000001⟩).fieldBits
        ["semaphore", "reduction"] = some 8 ∧
      (GPFIFO.CallMethodRequests ⟨7, 0x40000001⟩).count .fault = 0 := by
  decide

/-- C15, amended: a semaphore control word (method 7) or syncpoint control word
(method 29) is not validated. Whatever its fields hold, reserved values
included, the word is stored in its raw register, no fault is reported, no
semaphore or syncpoint side effect is applied (the diagnostic trace is the
only request sent), and the call returns. -/
theorem C15_control_words_not_validated (g : GPFIFO) (w : Nat) :
    GPFIFO.CallMethodRequests ⟨7, w⟩ = [.trace 7 w] ∧
      GPFIFO.CallMethodRequests ⟨29, w⟩ = [.trace 29 w] ∧
      (GPFIFO.CallMethodRequests ⟨7, w⟩).count .fault = 0 ∧
      (GPFIFO.CallMethodRequests ⟨29, w⟩).count .fault = 0 ∧
      (g.CallMethod ⟨7, w⟩).raw 7 = w % 2 ^ 32 ∧
      (g.CallMethod ⟨29, w⟩).raw 29 = w % 2 ^ 32 := by
  refine ⟨rfl, rfl, ?_, ?_, raw_CallMethod_self g 7 w, raw_CallMethod_self g 29 w⟩ <;>
    simp [GPFIFO.CallMethodRequests]

/-- C16: for all 32-bit words `h` and `l` written to the semaphore
offset-high (method 4) and offset-low (method 5) slots, the decoded
`offsetUpper` is bits 0..7 of `h` and the decoded `offsetLower` is bits 2..31
of `l` (bits 0..1 of `l` being the padding `_pad1_`), so the semaphore address
`offsetUpper * 2^32 + offsetLower * 4` equals `(h mod 256) * 2^32` plus `l`
with its two low bits cleared, is below `2^40` and is a multiple of 4. -/
theorem C16_semaphore_address (g : GPFIFO) (h l : Nat) (hh : h < 2 ^ 32) (hl : l < 2 ^ 32) :
    ((placeBitFields false 0 semaphoreOffsetUpperFields).map
          fun p => (p.field.name, p.offset, p.offset + p.field.width - 1)) =
        [("offsetUpper", 0, 7), ("_pad0_", 8, 31)] ∧
      ((placeBitFields false 0 semaphoreOffsetLowerFields).map
          fun p => (p.field.name, p.offset, p.offset + p.field.width - 1)) =
        [("_pad1_", 0, 1), ("offsetLower", 2, 31)] ∧
      ∃ offsetUpper offsetLower : Nat,
        ((g.CallMethod ⟨4, h⟩).CallMethod ⟨5, l⟩).field ["semaphore", "offsetUpper"] =
          some (offsetUpper : Int) ∧
        ((g.CallMethod ⟨4, h⟩).CallMethod ⟨5, l⟩).field ["semaphore", "offsetLower"] =
          some (offsetLower : Int) ∧
        offsetUpper = h % 2 ^ 8 ∧
        offsetLower = l / 2 ^ 2 ∧
        offsetUpper * 2 ^ 32 + offsetLower * 4 = h % 256 * 2 ^ 32 + (l - l % 4) ∧
        offsetUpper * 2 ^ 32 + offsetLower * 4 < 2 ^ 40 ∧
        (offsetUpper * 2 ^ 32 + offsetLower * 4) % 4 = 0 := by
  refine ⟨by decide, by decide, h % 2 ^ 8, l / 2 ^ 2, ?_, ?_, rfl, rfl, ?_, ?_, ?_⟩
  · rw [field_eq_read _ _ ⟨4, 0, 8, false⟩ (by decide),
      read_CallMethod_other ⟨4, 0, 8, false⟩ _ 5 l (by decide),
      read_of_unsigned _ _ rfl, bits_CallMethod ⟨4, 0, 8, false⟩ g h hh]
    simp only [pow_zero, Nat.div_one]
  · rw [field_eq_read _ _ ⟨5, 2, 30, false⟩ (by decide),
      read_of_unsigned _ _ rfl, bits_CallMethod ⟨5, 2, 30, false⟩ _ l hl]
    have : l / 2 ^ 2 % 2 ^ 30 = l / 2 ^ 2 := by
      apply Nat.mod_eq_of_lt
      norm_num at hl ⊢
      omega
    simp only [this]
  · norm_num
    omega
  · norm_num at hh hl ⊢
    omega
  · norm_num
    omega

theorem C16_semaphore_address_witness :
    ((placeBitFields false 0 semaphoreOffsetUpperFields).map
          fun p => (p.field.name, p.offset, p.offset + p.field.width - 1)) =
        [("offsetUpper", 0, 7), ("_pad0_", 8, 31)] ∧
      ((placeBitFields false 0 semaphoreOffsetLowerFields).map
          fun p => (p.field.name, p.offset, p.offset + p.field.width - 1)) =
        [("_pad1_", 0, 1), ("offsetLower", 2, 31)] ∧
      ∃ offsetUpper offsetLower : Nat,
        (((GPFIFO.new fun _ => 0).CallMethod ⟨4, 0xABCD12⟩).CallMethod
          ⟨5, 0x3456789F⟩).field ["semaphore", "offsetUpper"] = some (offsetUpper : Int) ∧
        (((GPFIFO.new fun _ => 0).CallMethod ⟨4, 0xABCD12⟩).CallMethod
          ⟨5, 0x3456789F⟩).field ["semaphore", "offsetLower"] = some (offsetLower : Int) ∧
        offsetUpper = 0xABCD12 % 2 ^ 8 ∧
        offsetLower = 0x3456789F / 2 ^ 2 ∧
        offsetUpper * 2 ^ 32 + offsetLower * 4 =
          0xABCD12 % 256 * 2 ^ 32 + (0x3456789F - 0x3456789F % 4) ∧
        offsetUpper * 2 ^ 32 + offsetLower * 4 < 2 ^ 40 ∧
        (offsetUpper * 2 ^ 32 + offsetLower * 4) % 4 = 0 :=
  C16_semaphore_address (GPFIFO.new fun _ => 0) 0xABCD12 0x3456789F (by decide) (by decide)

/-- C17, on the code: the layout is the one the claim gives (after
`CallMethod(30, w)` the field `wfi.scope` holds bit 0 of `w`, after
`CallMethod(32, w)` the field `yield.op` holds bits 0..1 of `w`), but both are
bit-fields of `enum class` types whose underlying type is `int`, so their top
bit is read as the sign: the scope reads as 0 or -1 and the yield op as a
number from -2 to 1. At `w = 1` the scope reads -1, which is neither
`CurrentScgType` (0) nor `All` (1); at `w = 2` and `w = 3` the yield op reads
-2 and -1, which are neither `RunlistTimeslice` (2) nor `Tsg` (3) nor any
other enumerator. -/
theorem C17_wfi_yield_reads :
    (∀ (g : GPFIFO) (w : Nat), w < 2 ^ 32 →
        (g.CallMethod ⟨30, w⟩).fieldBits ["wfi", "scope"] = some (w % 2) ∧
        (g.CallMethod ⟨32, w⟩).fieldBits ["yield", "op"] = some (w % 2 ^ 2) ∧
        (g.CallMethod ⟨30, w⟩).field ["wfi", "scope"] = some (-((w % 2 : Nat) : Int)) ∧
        (g.CallMethod ⟨32, w⟩).field ["yield", "op"] =
          some (if 2 ≤ w % 2 ^ 2 then ((w % 2 ^ 2 : Nat) : Int) - 4
            else ((w % 2 ^ 2 : Nat) : Int))) ∧
      ((GPFIFO.new fun _ => 0).CallMethod ⟨30, 1⟩).field ["wfi", "scope"] = some (-1) ∧
      (∀ e : WfiScope, e.value ≠ -1) ∧
      ((GPFIFO.new fun _ => 0).CallMethod ⟨32, 2⟩).field ["yield", "op"] = some (-2) ∧
      ((GPFIFO.new fun _ => 0).CallMethod ⟨32, 3⟩).field ["yield", "op"] = some (-1) ∧
      (∀ e : YieldOp, e.value ≠ -2 ∧ e.value ≠ -1) := by
  refine ⟨fun g w hw => ⟨?_, ?_, ?_, ?_⟩, by decide, fun e => ?_, by decide, by decide,
    fun e => ?_⟩
  · rw [fieldBits_CallMethod ["wfi", "scope"] ⟨30, 0, 1, true⟩ (by decide) g w hw]
    simp only [pow_zero, Nat.div_one, pow_one]
  · rw [fieldBits_CallMethod ["yield", "op"] ⟨32, 0, 2, true⟩ (by decide) g w hw]
    simp only [pow_zero, Nat.div_one]
  · rw [field_CallMethod ["wfi", "scope"] ⟨30, 0, 1, true⟩ (by decide) g w hw]
    simp only [pow_zero, Nat.div_one, pow_one, Nat.sub_self, true_and]
    rcases Nat.mod_two_eq_zero_or_one w with h | h <;> rw [h] <;> simp
  · rw [field_CallMethod ["yield", "op"] ⟨32, 0, 2, true⟩ (by decide) g w hw]
    simp only [pow_zero, Nat.div_one, true_and]
    norm_num
  · cases e <;> decide
  · cases e <;> decide

/-- C18: a later write to the same slot fully overwrites an earlier one. For
every method index `m` in `[0, 64)` and all arguments `a`, `b`, the state
after `CallMethod(m, a)` followed by `CallMethod(m, b)` equals the state after
`CallMethod(m, b)` alone; in particular `CallMethod` is idempotent on the
state. -/
theorem C18_CallMethod_overwrites (g : GPFIFO) (m a b : Nat)
    (hm : m < constant.GpfifoRegisterSize) :
    (g.CallMethod ⟨m, a⟩).CallMethod ⟨m, b⟩ = g.CallMethod ⟨m, b⟩ ∧
      (g.CallMethod ⟨m, a⟩).CallMethod ⟨m, a⟩ = g.CallMethod ⟨m, a⟩ := by
  have _ := hm
  constructor <;>
  · apply GPFIFO.ext_word
    intro i
    simp only [word_CallMethod]
    split <;> rfl

theorem C18_CallMethod_overwrites_witness :
    ((GPFIFO.new fun _ => 0).CallMethod ⟨6, 10⟩).CallMethod ⟨6, 11⟩ =
        (GPFIFO.new fun _ => 0).CallMethod ⟨6, 11⟩ ∧
      ((GPFIFO.new fun _ => 0).CallMethod ⟨6, 10⟩).CallMethod ⟨6, 10⟩ =
        (GPFIFO.new fun _ => 0).CallMethod ⟨6, 10⟩ :=
  C18_CallMethod_overwrites (GPFIFO.new fun _ => 0) 6 10 11 (by decide)

/-- C19: writes to distinct slots commute. For all method indices `m != n` in
`[0, 64)` and all arguments `a`, `b`, the state after `CallMethod(m, a)` then
`CallMethod(n, b)` equals the state after `CallMethod(n, b)` then
`CallMethod(m, a)`; so the final state does not depend on whether the address
and payload words of a descriptor are written before or after its control
word. -/
theorem C19_CallMethod_commutes (g : GPFIFO) (m n a b : Nat)
    (hm : m < constant.GpfifoRegisterSize) (hn : n < constant.GpfifoRegisterSize)
    (hmn : m ≠ n) :
    (g.CallMethod ⟨m, a⟩).CallMethod ⟨n, b⟩ = (g.CallMethod ⟨n, b⟩).CallMethod ⟨m, a⟩ := by
  have _ := hm
  have _ := hn
  apply GPFIFO.ext_word
  intro i
  simp only [word_CallMethod]
  by_cases hin : i = n
  · have him : i ≠ m := fun e => hmn (e.symm.trans hin)
    simp [hin, him, Ne.symm hmn]
  · simp [hin]

theorem C19_CallMethod_commutes_witness :
    ((GPFIFO.new fun _ => 0).CallMethod ⟨6, 0xCAFE⟩).CallMethod ⟨7, 2⟩ =
      ((GPFIFO.new fun _ => 0).CallMethod ⟨7, 2⟩).CallMethod ⟨6, 0xCAFE⟩ :=
  C19_CallMethod_commutes (GPFIFO.new fun _ => 0) 6 7 0xCAFE 2 (by decide) (by decide)
    (by decide)

/-- C20: the raw indices below 64 that no named member covers are the padding
indices 3, 10, 11, 14..19, 21..27 and the tail 33..63. A write to such an
index leaves the value of every field of every named member unchanged; a
write to an index of a named member leaves the value of every field of every
other member unchanged, so that it can change the decoded value of that
member only. -/
theorem C20_named_view_frame (g : GPFIFO) (i a : Nat)
    (hi : i < constant.GpfifoRegisterSize) :
    namedMembers =
        ["setObject", "illegal", "nop", "semaphore", "nonStallInterrupt", "fbFlush",
          "memOpC", "memOpD", "setReference", "syncpoint", "wfi", "crcCheck", "yield"] ∧
      (List.range constant.GpfifoRegisterSize).filter uncovered =
        [3, 10, 11, 14, 15, 16, 17, 18, 19, 21, 22, 23, 24, 25, 26, 27] ++
          List.range' 33 31 ∧
      (uncovered i = true → ∀ f ∈ namedFields, memberOf f.1 ∈ namedMembers →
        f.2.read (g.CallMethod ⟨i, a⟩) = f.2.read g) ∧
      (∀ name ∈ namedMembers, covers name i = true →
        ∀ f ∈ namedFields, memberOf f.1 ≠ name →
          f.2.read (g.CallMethod ⟨i, a⟩) = f.2.read g) := by
  have _ := hi
  refine ⟨by decide, by decide, fun hu f hf hmem => ?_, fun name hname hc f hf hne => ?_⟩
  · apply read_CallMethod_other
    intro hw
    have h1 := covers_memberOf f hf
    have h2 := List.all_eq_true.mp hu (memberOf f.1) hmem
    rw [← hw, h1] at h2
    exact absurd h2 (by decide)
  · apply read_CallMethod_other
    intro hw
    have hname' : name ∈ namedView.map Member.name := (List.mem_filter.mp hname).1
    exact hne (memberOf_of_covers f hf name hname' (by rw [hw]; exact hc))

theorem C20_named_view_frame_witness :
    uncovered 3 = true ∧
      (∀ f ∈ namedFields, memberOf f.1 ∈ namedMembers →
        f.2.read ((GPFIFO.new fun _ => 0).CallMethod ⟨3, 0xFFFFFFFF⟩) =
          f.2.read (GPFIFO.new fun _ => 0)) :=
  ⟨by decide,
    (C20_named_view_frame (GPFIFO.new fun _ => 0) 3 0xFFFFFFFF (by decide)).2.2.1
      (by decide)⟩

end gpu.engine

end skyline
